import Mathlib

/-!
Verification of the Persona Identity & Partitioned Registry subsystem of
celerix-depot.  The data model and the registry/handler operations are
translated from `src/backend/internal/db/db.go` and the API handler layer
(`ActivateAdmin`, `RecoverPersona`, `UpdateClientName`, `UpdateClient`,
`DeleteClient`).  The backing key-value store (the celerix-store SDK) is not
part of this repository; it is modelled from the spec's Partitioned Registry
contract (§4.1).
-/

namespace Depot

/-- Translated from `FileRecord` in db.go.  Go `int64` becomes `Int`. -/
structure FileRecord where
  ID : String
  OriginalName : String
  StoredPath : String
  Size : Int
  UploadTime : Int
  OwnerID : String
  OwnerName : String
  DownloadLink : String
deriving DecidableEq, Repr

/-- Translated from `ClientRecord` in db.go. -/
structure ClientRecord where
  ID : String
  Name : String
  RecoveryCode : String
  LastActive : Int
  IsAdmin : Bool
deriving DecidableEq, Repr

/-- A value stored in the registry: the repository only ever stores file
records and client records. -/
inductive Val where
  | file (r : FileRecord)
  | client (c : ClientRecord)
deriving DecidableEq, Repr

/-- Translated from `ListFilesOptions` in db.go.  Go `int` becomes `Int`. -/
structure ListFilesOptions where
  Search : String
  OwnerID : String
  Limit : Int
  Offset : Int
deriving DecidableEq, Repr

/-- Translated from `FileListResponse` in db.go. -/
structure FileListResponse where
  Files : List FileRecord
  Total : Int
deriving DecidableEq, Repr

def AppID : String := "depot"

def FileKeyPfx : String := "file:"

def ClientKeyPfx : String := "client:"

def SystemPersona : String := "_system"

/-- One physical entry of the partitioned registry: a value held at
`(partition, namespace, key)`. -/
structure SEntry where
  persona : String
  app : String
  key : String
  val : Val
deriving DecidableEq, Repr

/-- Modelled from the spec: the Partitioned Registry (§4.1), i.e. the
celerix-store SDK, which is not part of this repository.  `entries` is the
shared key-value space; `ioFault` models a `StorageFailure` (§7) of the
enumeration operations. -/
structure Store where
  entries : List SEntry
  ioFault : Bool
deriving DecidableEq, Repr

def SEntry.isAt (e : SEntry) (p a k : String) : Bool :=
  e.persona == p && e.app == a && e.key == k

/-- Modelled from the spec: `get(partition, namespace, key) -> value | NotFound`. -/
def Store.get (s : Store) (p a k : String) : Option Val :=
  (s.entries.find? (fun e => e.isAt p a k)).map (·.val)

/-- Modelled from the spec: `set(partition, namespace, key, value)` is an
idempotent upsert. -/
def Store.set (s : Store) (p a k : String) (v : Val) : Store :=
  { s with entries := ⟨p, a, k, v⟩ :: s.entries.filter (fun e => ! e.isAt p a k) }

/-- Modelled from the spec: `delete(partition, namespace, key) -> ok | NotFound`. -/
def Store.del (s : Store) (p a k : String) : Except Unit Store :=
  if s.entries.any (fun e => e.isAt p a k) then
    .ok { s with entries := s.entries.filter (fun e => ! e.isAt p a k) }
  else .error ()

/-- Modelled from the spec: the global key index, `locate(namespace, key)`
together with the value it points at (Go `GetGlobal` returns both). -/
def Store.getGlobal (s : Store) (a k : String) : Except Unit (Val × String) :=
  match s.entries.find? (fun e => e.app == a && e.key == k) with
  | some e => .ok (e.val, e.persona)
  | none => .error ()

/-- Modelled from the spec: `move(src, dst, namespace, key)` relocates a key's
value and updates the global index. -/
def Store.move (s : Store) (src dst a k : String) : Except Unit Store :=
  match s.get src a k with
  | none => .error ()
  | some v =>
    .ok (Store.set { s with entries := s.entries.filter (fun e => ! e.isAt src a k) } dst a k v)

def Store.hasPersona (s : Store) (p : String) : Bool :=
  s.entries.any (fun e => e.persona == p)

/-- Modelled from the spec: `listNamespace(partition, namespace)`; it fails
on an I/O fault or when the partition does not exist. -/
def Store.getAppStore (s : Store) (p a : String) : Except Unit (List (String × Val)) :=
  if s.ioFault || ! s.hasPersona p then .error ()
  else .ok ((s.entries.filter (fun e => e.persona == p && e.app == a)).map
    (fun e => (e.key, e.val)))

/-- Modelled from the spec: `dumpNamespace(namespace)`, the full
cross-partition enumeration; it fails on an I/O fault. -/
def Store.dumpApp (s : Store) (a : String) : Except Unit (List (String × List (String × Val))) :=
  if s.ioFault then .error ()
  else .ok ((((s.entries.filter (fun e => e.app == a)).map (·.persona)).dedup).map
    (fun p => (p, (s.entries.filter (fun e => e.persona == p && e.app == a)).map
      (fun e => (e.key, e.val)))))

/-- Go's `getRecord[FileRecord]` coerces any stored value through a JSON
round-trip; a `ClientRecord` value shares only the `id` field with
`FileRecord`, so everything else comes out as the zero value. -/
def jsonToFile : Val → FileRecord
  | .file r => r
  | .client c => ⟨c.ID, "", "", 0, 0, "", "", ""⟩

/-- Go's `getRecord[ClientRecord]` under the same JSON coercion. -/
def jsonToClient : Val → ClientRecord
  | .client c => c
  | .file r => ⟨r.ID, "", "", 0, false⟩

/-- `getRecord[FileRecord]` from db.go. -/
def getRecordFile (s : Store) (p a k : String) : Except Unit FileRecord :=
  match s.get p a k with
  | none => .error ()
  | some v => .ok (jsonToFile v)

/-- `getRecord[ClientRecord]` from db.go. -/
def getRecordClient (s : Store) (p a k : String) : Except Unit ClientRecord :=
  match s.get p a k with
  | none => .error ()
  | some v => .ok (jsonToClient v)

/-- The partition a record with the given owner id lives in: db.go maps an
empty owner to the system partition (this inline pattern recurs in
`SaveFileRecord`, `UpdateFileRecord` and `DeleteFileRecord`). -/
def partitionFor (owner : String) : String :=
  if owner = "" then SystemPersona else owner

/-- `strings.Contains` (case handling is done by the caller in db.go). -/
def listContains (needle : List Char) : List Char → Bool
  | [] => needle.isEmpty
  | c :: t => needle.isPrefixOf (c :: t) || listContains needle t

def strContains (hay needle : String) : Bool :=
  listContains needle.data hay.data

/-- `strings.HasPrefix` from the Go standard library. -/
def hasPfx (s pre : String) : Bool :=
  pre.data.isPrefixOf s.data

/-- Well-formedness of one registry entry of the depot namespace: a file
record lives in the partition named by its owner (system partition for an
empty owner) under the key `file:<id>`, and a client record lives in the
system partition under `client:<id>`.  This is the partition/owner
coherence invariant of the spec, strengthened with key/id coherence (which
`SaveFileRecord` and `UpsertClient` always establish and which the update
path relies on). -/
def entryOK (e : SEntry) : Bool :=
  e.app != AppID ||
    (match e.val with
     | .file r => e.persona == partitionFor r.OwnerID && e.key == FileKeyPfx ++ r.ID
     | .client c => e.persona == SystemPersona && e.key == ClientKeyPfx ++ c.ID)

/-- The registry invariant: every entry is well-formed. -/
def Inv (s : Store) : Prop :=
  ∀ e ∈ s.entries, entryOK e = true

instance (s : Store) : Decidable (Inv s) :=
  inferInstanceAs (Decidable (∀ e ∈ s.entries, entryOK e = true))

namespace db

/-- `SaveFileRecord` from db.go: an unconditional `Set` into the owner's
partition. -/
def SaveFileRecord (s : Store) (record : FileRecord) : Store :=
  Store.set s (partitionFor record.OwnerID) AppID (FileKeyPfx ++ record.ID) (.file record)

/-- `GetClient` from db.go. -/
def GetClient (s : Store) (id : String) : Except Unit ClientRecord :=
  getRecordClient s SystemPersona AppID (ClientKeyPfx ++ id)

/-- The owner-name resolution block shared (textually duplicated in Go) by
`GetFileRecord` and `ListFiles`. -/
def resolveOwnerName (s : Store) (r : FileRecord) : FileRecord :=
  if r.OwnerID ≠ "" then
    match GetClient s r.OwnerID with
    | .ok c => { r with OwnerName := c.Name }
    | .error _ => { r with OwnerName := "Unknown" }
  else { r with OwnerName := "Admin" }

/-- `GetFileRecord` from db.go: resolve the partition through the global
index, read the record, attach the owner's display name. -/
def GetFileRecord (s : Store) (id : String) : Except Unit FileRecord := do
  let vp ← s.getGlobal AppID (FileKeyPfx ++ id)
  let record ← getRecordFile s vp.2 AppID (FileKeyPfx ++ id)
  return resolveOwnerName s record

/-- `UpdateFileRecord` from db.go: move between partitions when the owner
changes, then always re-`Set` the updated record. -/
def UpdateFileRecord (s : Store) (id name ownerID : String) : Except Unit Store := do
  let record ← GetFileRecord s id
  let oldPersona := partitionFor record.OwnerID
  let record := { record with OriginalName := name, OwnerID := ownerID }
  let newPersona := partitionFor ownerID
  if oldPersona ≠ newPersona then
    let s1 ← s.move oldPersona newPersona AppID (FileKeyPfx ++ id)
    return Store.set s1 newPersona AppID (FileKeyPfx ++ record.ID) (.file record)
  else
    return Store.set s newPersona AppID (FileKeyPfx ++ record.ID) (.file record)

/-- `DeleteFileRecord` from db.go. -/
def DeleteFileRecord (s : Store) (id : String) : Except Unit Store := do
  let record ← GetFileRecord s id
  s.del (partitionFor record.OwnerID) AppID (FileKeyPfx ++ id)

/-- The descending-by-upload-time comparison used by `ListFiles`' sort. -/
def uploadGE (a b : FileRecord) : Prop := b.UploadTime ≤ a.UploadTime

instance : DecidableRel uploadGE := fun a b => Int.decLe b.UploadTime a.UploadTime

instance : IsTotal FileRecord uploadGE := ⟨fun a b => le_total b.UploadTime a.UploadTime⟩

instance : IsTrans FileRecord uploadGE := ⟨fun _ _ _ h h' => le_trans h' h⟩

/-- The enumeration phase of `ListFiles` from db.go: the single-partition
"optimization" path (errors swallowed) or the cross-partition `DumpApp`
path (errors surfaced). -/
def listGather (s : Store) (opts : ListFilesOptions) : Except Unit (List FileRecord) :=
  if opts.OwnerID ≠ "" then
    match s.getAppStore opts.OwnerID AppID with
    | .error _ => .ok []
    | .ok appStore => .ok (appStore.filterMap (fun kv =>
        if hasPfx kv.1 FileKeyPfx then
          (getRecordFile s opts.OwnerID AppID kv.1).toOption
        else none))
  else
    match s.dumpApp AppID with
    | .error _ => .error ()
    | .ok allData => .ok ((allData.map (fun pa =>
        pa.2.filterMap (fun kv =>
          if hasPfx kv.1 FileKeyPfx then
            (getRecordFile s pa.1 AppID kv.1).toOption
          else none))).flatten)

/-- The search-filter and owner-name phase of `ListFiles` from db.go. -/
def listFilter (s : Store) (opts : ListFilesOptions) (allRecords : List FileRecord) :
    List FileRecord :=
  allRecords.filterMap (fun r =>
    if opts.Search ≠ "" && ! strContains r.OriginalName.toLower opts.Search.toLower then none
    else some (resolveOwnerName s r))

/-- `ListFiles` from db.go: enumerate, filter, sort descending by upload
time, then slice `[start:end]` with Go's clamping; a negative start is a Go
slice-bounds panic, modelled as an error. -/
def ListFiles (s : Store) (opts : ListFilesOptions) : Except Unit FileListResponse :=
  match listGather s opts with
  | .error _ => .error ()
  | .ok allRecords =>
    let filtered := listFilter s opts allRecords
    let sorted := List.insertionSort uploadGE filtered
    let total : Int := filtered.length
    let start : Int := if opts.Offset > total then total else opts.Offset
    let stop : Int := if opts.Limit ≤ 0 ∨ start + opts.Limit > total then total
      else start + opts.Limit
    if start < 0 then .error ()
    else .ok ⟨(sorted.drop start.toNat).take (stop - start).toNat, total⟩

/-- `UpsertClient` from db.go: create with `IsAdmin := false`, or update
name, recovery code and last-active in place. -/
def UpsertClient (s : Store) (id name recoveryCode : String) (lastActive : Int) : Store :=
  match GetClient s id with
  | .error _ =>
    Store.set s SystemPersona AppID (ClientKeyPfx ++ id)
      (.client ⟨id, name, recoveryCode, lastActive, false⟩)
  | .ok c =>
    Store.set s SystemPersona AppID (ClientKeyPfx ++ id)
      (.client { c with Name := name, RecoveryCode := recoveryCode, LastActive := lastActive })

/-- `DeleteClient` from db.go. -/
def DeleteClient (s : Store) (id : String) : Except Unit Store :=
  s.del SystemPersona AppID (ClientKeyPfx ++ id)

/-- `GetClientByRecoveryCode` from db.go: linear scan of the system
partition's client keys. -/
def GetClientByRecoveryCode (s : Store) (code : String) : Except Unit ClientRecord := do
  let appStore ← s.getAppStore SystemPersona AppID
  match appStore.find? (fun kv => hasPfx kv.1 ClientKeyPfx &&
      (match getRecordClient s SystemPersona AppID kv.1 with
       | .ok c => c.RecoveryCode == code
       | .error _ => false)) with
  | some kv =>
    match getRecordClient s SystemPersona AppID kv.1 with
    | .ok c => .ok c
    | .error _ => .error ()
  | none => .error ()

/-- `UpdateClientAdminStatus` from db.go. -/
def UpdateClientAdminStatus (s : Store) (id : String) (isAdm : Bool) : Except Unit Store := do
  let c ← GetClient s id
  return Store.set s SystemPersona AppID (ClientKeyPfx ++ id) (.client { c with IsAdmin := isAdm })

/-- `UpdateClientFull` from db.go. -/
def UpdateClientFull (s : Store) (id name recoveryCode : String) (isAdm : Bool) :
    Except Unit Store := do
  let c ← GetClient s id
  return Store.set s SystemPersona AppID (ClientKeyPfx ++ id)
    (.client { c with Name := name, RecoveryCode := recoveryCode, IsAdmin := isAdm })

end db

namespace api

/-- HTTP status outcomes of the handler layer. -/
inductive Status where
  | ok
  | badRequest
  | forbidden
  | notFound
  | internalError
deriving DecidableEq, Repr

/-- `Handler.isAdmin` from the API layer: the caller is an administrator
iff the `X-Client-ID` header is non-empty and the persona's stored
`IsAdmin` flag is set. -/
def isAdmin (s : Store) (clientID : String) : Bool :=
  clientID ≠ "" &&
    (match db.GetClient s clientID with
     | .ok c => c.IsAdmin
     | .error _ => false)

/-- `Handler.ActivateAdmin` from the API layer.  `adminSecret` is the
configured `ADMIN_SECRET`; `secret` is the request body's field (gin's
`binding:"required"` rejects an empty one with 400). -/
def ActivateAdmin (adminSecret : String) (s : Store) (clientID secret : String) :
    Status × Store :=
  if clientID = "" then (.badRequest, s)
  else if secret = "" then (.badRequest, s)
  else if adminSecret = "" || secret ≠ adminSecret then (.forbidden, s)
  else
    match db.UpdateClientAdminStatus s clientID true with
    | .ok s1 => (.ok, s1)
    | .error _ => (.internalError, s)

/-- `Handler.RecoverPersona` from the API layer.  `derive` abstracts
`uuid.NewSHA1(h.CelerixNamespace, code)`, the deterministic id derivation;
the handler returns `(persona, id, name)` on success. -/
def RecoverPersona (derive : String → String) (s : Store) (code : String) :
    Status × Option (String × String × String) :=
  if code = "" then (.badRequest, none)
  else
    match db.GetClientByRecoveryCode s code with
    | .error _ => (.notFound, none)
    | .ok client =>
      (.ok, some (if client.IsAdmin then "admin" else "client",
        derive client.RecoveryCode, client.Name))

/-- `Handler.UpdateClientName` from the API layer.  `fresh` abstracts the
randomly generated candidate code `strings.ToUpper(uuid.New().String()[:8])`;
`now` abstracts `time.Now().Unix()`.  Returns the derived id and the
accepted recovery code. -/
def UpdateClientName (derive : String → String) (now : Int) (s : Store)
    (clientID name fresh : String) : Status × Store × Option (String × String) :=
  if clientID = "" then (.badRequest, s, none)
  else if name = "" then (.badRequest, s, none)
  else
    let recoveryCode :=
      match db.GetClient s clientID with
      | .ok client => if client.RecoveryCode ≠ "" then client.RecoveryCode else fresh
      | .error _ => fresh
    let deterministicID := derive recoveryCode
    (.ok, db.UpsertClient s deterministicID name recoveryCode now,
      some (deterministicID, recoveryCode))

/-- `Handler.UpdateClient` from the API layer (admin-only full persona
edit; the self-demotion guard answers 400, and gin's `binding:"required"`
rejects empty name or recovery code). -/
def UpdateClient (s : Store) (callerID id name recoveryCode : String) (isAdm : Bool) :
    Status × Store :=
  if ! isAdmin s callerID then (.forbidden, s)
  else if name = "" || recoveryCode = "" then (.badRequest, s)
  else if id = callerID && ! isAdm then (.badRequest, s)
  else
    match db.UpdateClientFull s id name recoveryCode isAdm with
    | .ok s1 => (.ok, s1)
    | .error _ => (.internalError, s)

/-- `Handler.DeleteClient` from the API layer: admin-only; only the literal
id `"admin"` is protected. -/
def DeleteClient (s : Store) (callerID id : String) : Status × Store :=
  if ! isAdmin s callerID then (.forbidden, s)
  else if id = "admin" then (.badRequest, s)
  else
    match db.DeleteClient s id with
    | .ok s1 => (.ok, s1)
    | .error _ => (.internalError, s)

end api

/-! Concrete registry states used by the closed counterexamples and the
witnesses below. -/

/-- A store holding a single system-owned (empty `OwnerID`) file record. -/
def sSysFile : Store :=
  ⟨[⟨"_system", "depot", "file:f", .file ⟨"f", "doc", "", 0, 0, "", "", ""⟩⟩], false⟩

/-- The result of reassigning that system-owned file to `alice`. -/
def sSysFileMoved : Store :=
  ⟨[⟨"alice", "depot", "file:f",
    .file ⟨"f", "doc", "", 0, 0, "alice", "Admin", ""⟩⟩], false⟩

/-- A store holding a file whose stored owner is the literal system
partition name. -/
def sUnderscoreFile : Store :=
  ⟨[⟨"_system", "depot", "file:h", .file ⟨"h", "doc", "", 0, 0, "_system", "", ""⟩⟩], false⟩

/-- `sUnderscoreFile` after reassigning the file to the empty owner: both
owners map to the `_system` partition, so no move happens and the key stays
in the old owner's partition. -/
def sUnderscoreFileKept : Store :=
  ⟨[⟨"_system", "depot", "file:h", .file ⟨"h", "doc", "", 0, 0, "", "Unknown", ""⟩⟩], false⟩

/-- A store holding a single file record owned by `alice`. -/
def sAliceFile : Store :=
  ⟨[⟨"alice", "depot", "file:g", .file ⟨"g", "doc", "", 0, 0, "alice", "", ""⟩⟩], false⟩

/-- The result of reassigning `alice`'s file to `bob`. -/
def sAliceFileMoved : Store :=
  ⟨[⟨"bob", "depot", "file:g",
    .file ⟨"g", "doc2", "", 0, 0, "bob", "Unknown", ""⟩⟩], false⟩

/-- `sAliceFile` after `alice`'s file was reassigned to the empty owner
(the system partition). -/
def sAliceFileSys : Store :=
  ⟨[⟨"_system", "depot", "file:g",
    .file ⟨"g", "n", "", 0, 0, "", "Unknown", ""⟩⟩], false⟩

/-- A store holding a single administrator persona `u1`. -/
def sAdminU1 : Store :=
  ⟨[⟨"_system", "depot", "client:u1", .client ⟨"u1", "Root", "RC", 0, true⟩⟩], false⟩

/-- A store holding a persona `a` whose recovery code is `X`. -/
def sCodeX : Store :=
  ⟨[⟨"_system", "depot", "client:a", .client ⟨"a", "Ann", "X", 0, false⟩⟩], false⟩

/-- `sCodeX` after a second caller saved a name while the freshly generated
candidate code happened to be `X` as well. -/
def sCodeXTwice : Store :=
  ⟨[⟨"_system", "depot", "client:X-id", .client ⟨"X-id", "Bea", "X", 5, false⟩⟩,
    ⟨"_system", "depot", "client:a", .client ⟨"a", "Ann", "X", 0, false⟩⟩], false⟩

/-- A store with three file records owned by `a`, with upload times 30, 10
and 20. -/
def sThreeFiles : Store :=
  ⟨[⟨"a", "depot", "file:x", .file ⟨"x", "x", "", 0, 30, "a", "", ""⟩⟩,
    ⟨"a", "depot", "file:y", .file ⟨"y", "y", "", 0, 10, "a", "", ""⟩⟩,
    ⟨"a", "depot", "file:z", .file ⟨"z", "z", "", 0, 20, "a", "", ""⟩⟩], false⟩

/-- The persona directory produced by saving the name `Ada` (fresh code
`FRESH`) into an empty store, with the identity derivation function. -/
def sAda : Store :=
  ⟨[⟨"_system", "depot", "client:FRESH", .client ⟨"FRESH", "Ada", "FRESH", 7, false⟩⟩], false⟩

instance {ε α : Type} [DecidableEq ε] [DecidableEq α] : DecidableEq (Except ε α) := fun x y =>
  match x, y with
  | .ok a, .ok b => if h : a = b then isTrue (by rw [h]) else isFalse (by simp [h])
  | .ok _, .error _ => isFalse (fun hh => Except.noConfusion hh)
  | .error _, .ok _ => isFalse (fun hh => Except.noConfusion hh)
  | .error e, .error f => if h : e = f then isTrue (by rw [h]) else isFalse (by simp [h])

/-! Generic helper lemmas about the registry model. -/

theorem isAt_iff {e : SEntry} {p a k : String} :
    e.isAt p a k = true ↔ e.persona = p ∧ e.app = a ∧ e.key = k := by
  simp [SEntry.isAt, and_assoc]

theorem isAt_self (p a k : String) (v : Val) : (SEntry.mk p a k v).isAt p a k = true := by
  simp [SEntry.isAt]

theorem exceptBind_ok {α β : Type} {x : Except Unit α} {f : α → Except Unit β} {b : β}
    (h : (x >>= f) = .ok b) : ∃ a, x = .ok a ∧ f a = .ok b := by
  cases x with
  | ok a => exact ⟨a, rfl, h⟩
  | error e => exact Except.noConfusion h

theorem find?_filter_of_imp {α : Type} (p q : α → Bool) (l : List α)
    (h : ∀ e, p e = true → q e = true) : (l.filter q).find? p = l.find? p := by
  induction l with
  | nil => rfl
  | cons hd tl ih =>
    by_cases hq : q hd = true
    · by_cases hp : p hd = true
      · simp [List.filter_cons, hq, List.find?_cons_of_pos _ hp]
      · simp [List.filter_cons, hq, List.find?_cons_of_neg _ hp, ih]
    · have hp : ¬ p hd = true := fun hpt => hq (h hd hpt)
      simp [List.filter_cons, hq, List.find?_cons_of_neg _ hp, ih]

theorem get_some_mem {s : Store} {p a k : String} {v : Val} (h : s.get p a k = some v) :
    (⟨p, a, k, v⟩ : SEntry) ∈ s.entries := by
  unfold Store.get at h
  cases hf : s.entries.find? (fun e => e.isAt p a k) with
  | none => rw [hf] at h; exact Option.noConfusion h
  | some e =>
    rw [hf] at h
    have hm := List.mem_of_find?_eq_some hf
    have hp := List.find?_some hf
    rw [isAt_iff] at hp
    obtain ⟨h1, h2, h3⟩ := hp
    have hv : e.val = v := by simpa using h
    cases e with
    | mk ep ea ek ev =>
      simp only at h1 h2 h3 hv
      rw [← h1, ← h2, ← h3, ← hv]
      exact hm

theorem get_none_iff {s : Store} {p a k : String} :
    s.get p a k = none ↔ ∀ e ∈ s.entries, e.isAt p a k = false := by
  unfold Store.get
  rw [Option.map_eq_none', List.find?_eq_none]
  simp

theorem get_set_self (s : Store) (p a k : String) (v : Val) :
    (s.set p a k v).get p a k = some v := by
  unfold Store.set Store.get
  dsimp only
  rw [List.find?_cons_of_pos]
  · rfl
  · exact isAt_self p a k v

theorem get_set_other (s : Store) (p a k p' a' k' : String) (v : Val)
    (h : ¬(p' = p ∧ a' = a ∧ k' = k)) :
    (s.set p a k v).get p' a' k' = s.get p' a' k' := by
  have head : ((SEntry.mk p a k v).isAt p' a' k') = false := by
    rw [Bool.eq_false_iff]
    intro hc
    rw [isAt_iff] at hc
    simp only at hc
    exact h ⟨hc.1.symm, hc.2.1.symm, hc.2.2.symm⟩
  unfold Store.set Store.get
  dsimp only
  rw [List.find?_cons_of_neg]
  · rw [find?_filter_of_imp]
    intro e he
    rw [Bool.not_eq_true']
    rw [Bool.eq_false_iff]
    intro hc
    rw [isAt_iff] at he hc
    exact h ⟨he.1.symm.trans hc.1, he.2.1.symm.trans hc.2.1, he.2.2.symm.trans hc.2.2⟩
  · simp [head]

theorem str_append_cancel {a b c : String} (h : a ++ b = a ++ c) : b = c := by
  have hd := String.ext_iff.mp h
  rw [String.data_append, String.data_append] at hd
  exact String.ext_iff.mpr (List.append_cancel_left hd)

theorem hasPfx_append (p x : String) : hasPfx (p ++ x) p = true := by
  unfold hasPfx
  rw [String.data_append]
  exact List.isPrefixOf_iff_prefix.mpr (List.prefix_append _ _)

theorem hasPfx_elim {k p : String} (h : hasPfx k p = true) : ∃ x, k = p ++ x := by
  unfold hasPfx at h
  obtain ⟨t, ht⟩ := List.isPrefixOf_iff_prefix.mp h
  refine ⟨⟨t⟩, String.ext_iff.mpr ?_⟩
  rw [String.data_append]
  exact ht.symm

theorem filePfx_ne_clientPfx (x y : String) : FileKeyPfx ++ x ≠ ClientKeyPfx ++ y := by
  intro h
  have hd := String.ext_iff.mp h
  rw [String.data_append, String.data_append] at hd
  have hh := congrArg List.head? hd
  rw [show (FileKeyPfx.data) = 'f' :: 'i' :: 'l' :: 'e' :: ':' :: [] from rfl,
    show (ClientKeyPfx.data) = 'c' :: 'l' :: 'i' :: 'e' :: 'n' :: 't' :: ':' :: [] from rfl] at hh
  simp at hh

theorem clientKey_not_filePfx (y : String) : hasPfx (ClientKeyPfx ++ y) FileKeyPfx = false := by
  rw [Bool.eq_false_iff]
  intro hc
  obtain ⟨x, hx⟩ := hasPfx_elim hc
  exact filePfx_ne_clientPfx x y (hx.symm)

theorem entryOK_file {e : SEntry} {r : FileRecord} (hok : entryOK e = true)
    (happ : e.app = AppID) (hval : e.val = .file r) :
    e.persona = partitionFor r.OwnerID ∧ e.key = FileKeyPfx ++ r.ID := by
  unfold entryOK at hok
  rw [happ, hval] at hok
  simpa using hok

theorem entryOK_client {e : SEntry} {c : ClientRecord} (hok : entryOK e = true)
    (happ : e.app = AppID) (hval : e.val = .client c) :
    e.persona = SystemPersona ∧ e.key = ClientKeyPfx ++ c.ID := by
  unfold entryOK at hok
  rw [happ, hval] at hok
  simpa using hok

theorem entryOK_fileEntry (r : FileRecord) :
    entryOK ⟨partitionFor r.OwnerID, AppID, FileKeyPfx ++ r.ID, .file r⟩ = true := by
  unfold entryOK
  simp

theorem entryOK_clientEntry (c : ClientRecord) :
    entryOK ⟨SystemPersona, AppID, ClientKeyPfx ++ c.ID, .client c⟩ = true := by
  unfold entryOK
  simp

theorem inv_filter (s : Store) (f : SEntry → Bool) (io : Bool) (hs : Inv s) :
    Inv ⟨s.entries.filter f, io⟩ := by
  intro e he
  exact hs e (List.mem_filter.mp he).1

theorem inv_set {s : Store} {p a k : String} {v : Val} (hs : Inv s)
    (h : entryOK ⟨p, a, k, v⟩ = true) : Inv (s.set p a k v) := by
  intro e he
  rcases List.mem_cons.mp he with he | he
  · rw [he]; exact h
  · exact hs e (List.mem_filter.mp he).1

theorem resolve_ID (s : Store) (r : FileRecord) : (db.resolveOwnerName s r).ID = r.ID := by
  unfold db.resolveOwnerName
  split
  · cases hg : db.GetClient s r.OwnerID <;> simp [hg]
  · rfl

theorem resolve_OwnerID (s : Store) (r : FileRecord) :
    (db.resolveOwnerName s r).OwnerID = r.OwnerID := by
  unfold db.resolveOwnerName
  split
  · cases hg : db.GetClient s r.OwnerID <;> simp [hg]
  · rfl

/-- Inversion of a successful `GetFileRecord` under the registry invariant:
the raw stored record has the requested id, lives in the partition of its
owner, and the returned record is its owner-name resolution. -/
theorem getFileRecord_ok_elim {s : Store} {id : String} {r₀ : FileRecord}
    (hinv : Inv s) (h : db.GetFileRecord s id = .ok r₀) :
    ∃ rr : FileRecord, rr.ID = id ∧ r₀ = db.resolveOwnerName s rr ∧
      s.get (partitionFor rr.OwnerID) AppID (FileKeyPfx ++ id) = some (.file rr) := by
  unfold db.GetFileRecord at h
  obtain ⟨vp, hg, h⟩ := exceptBind_ok h
  obtain ⟨raw, hr, h⟩ := exceptBind_ok h
  have hres : db.resolveOwnerName s raw = r₀ := by
    simpa [pure, Except.pure] using h
  unfold getRecordFile at hr
  cases hget : s.get vp.2 AppID (FileKeyPfx ++ id) with
  | none => rw [hget] at hr; exact Except.noConfusion hr
  | some v =>
    rw [hget] at hr
    have hraw : jsonToFile v = raw := by simpa using hr
    have hmem := get_some_mem hget
    have hok := hinv _ hmem
    cases v with
    | client c =>
      have hkey : FileKeyPfx ++ id = ClientKeyPfx ++ c.ID := (entryOK_client hok rfl rfl).2
      exact absurd hkey (filePfx_ne_clientPfx id c.ID)
    | file rr =>
      have hfe := entryOK_file hok rfl rfl
      have hkey : FileKeyPfx ++ id = FileKeyPfx ++ rr.ID := hfe.2
      have hid : rr.ID = id := (str_append_cancel hkey).symm
      have hper : vp.2 = partitionFor rr.OwnerID := hfe.1
      refine ⟨rr, hid, ?_, ?_⟩
      · rw [← hres, ← hraw]; rfl
      · rw [← hper]; exact hget

theorem inv_save (s : Store) (r : FileRecord) (hs : Inv s) : Inv (db.SaveFileRecord s r) :=
  inv_set hs (entryOK_fileEntry r)

theorem inv_update {s : Store} {id name o : String} {s' : Store}
    (hinv : Inv s) (h : db.UpdateFileRecord s id name o = .ok s') : Inv s' := by
  unfold db.UpdateFileRecord at h
  obtain ⟨r₀, hget, h⟩ := exceptBind_ok h
  obtain ⟨rr, hid, hres, hraw⟩ := getFileRecord_ok_elim hinv hget
  have hro : r₀.OwnerID = rr.OwnerID := by rw [hres]; exact resolve_OwnerID s rr
  have hri : r₀.ID = id := by rw [hres, resolve_ID]; exact hid
  dsimp only at h
  split at h
  · obtain ⟨s1, hmv, h2⟩ := exceptBind_ok h
    have hs' : Store.set s1 (partitionFor o) AppID
        (FileKeyPfx ++ r₀.ID) (.file { r₀ with OriginalName := name, OwnerID := o }) = s' := by
      simpa [pure, Except.pure] using h2
    unfold Store.move at hmv
    rw [hro, hraw] at hmv
    have hs1 : Store.set ⟨s.entries.filter
        (fun e => ! e.isAt (partitionFor rr.OwnerID) AppID (FileKeyPfx ++ id)), s.ioFault⟩
        (partitionFor o) AppID (FileKeyPfx ++ id) (.file rr) = s1 := by
      simpa using hmv
    rw [← hs']
    intro e he
    rcases List.mem_cons.mp he with he | he
    · rw [he]
      exact entryOK_fileEntry { r₀ with OriginalName := name, OwnerID := o }
    · have hmf := List.mem_filter.mp he
      rw [← hs1] at hmf
      rcases List.mem_cons.mp hmf.1 with he2 | he2
      · exfalso
        have : e.isAt (partitionFor o) AppID (FileKeyPfx ++ r₀.ID) = true := by
          rw [he2, hri]
          exact isAt_self _ _ _ _
        rw [this] at hmf
        exact Bool.noConfusion hmf.2
      · exact hinv e (List.mem_filter.mp (List.mem_filter.mp he2).1).1
  · have hs' : Store.set s (partitionFor o) AppID
        (FileKeyPfx ++ r₀.ID) (.file { r₀ with OriginalName := name, OwnerID := o }) = s' := by
      simpa [pure, Except.pure] using h
    rw [← hs']
    exact inv_set hinv (entryOK_fileEntry { r₀ with OriginalName := name, OwnerID := o })

theorem inv_delete {s : Store} {id : String} {s' : Store}
    (hinv : Inv s) (h : db.DeleteFileRecord s id = .ok s') : Inv s' := by
  unfold db.DeleteFileRecord at h
  obtain ⟨r₀, _, h⟩ := exceptBind_ok h
  unfold Store.del at h
  split at h
  · have : (⟨s.entries.filter
        (fun e => ! e.isAt (partitionFor r₀.OwnerID) AppID (FileKeyPfx ++ id)), s.ioFault⟩ :
        Store) = s' := by
      simpa using h
    rw [← this]
    exact inv_filter s _ s.ioFault hinv
  · exact Except.noConfusion h

/-- C2: every file record's physical storage partition equals its `ownerId`
(system partition when the owner is empty); the registry invariant `Inv`
(which strengthens this with key/id coherence, needed for induction) is
preserved by `SaveFileRecord`, `UpdateFileRecord` and `DeleteFileRecord`,
and it implies the claimed partition/owner coherence for every stored file
record. -/
theorem C2_partition_owner_invariant :
    (∀ s r, Inv s → Inv (db.SaveFileRecord s r)) ∧
    (∀ s id name o s', Inv s → db.UpdateFileRecord s id name o = .ok s' → Inv s') ∧
    (∀ s id s', Inv s → db.DeleteFileRecord s id = .ok s' → Inv s') ∧
    (∀ s, Inv s → ∀ e ∈ s.entries, e.app = AppID →
      ∀ r, e.val = .file r → e.persona = partitionFor r.OwnerID) :=
  ⟨fun s r hs => inv_save s r hs,
   fun _ _ _ _ _ hs h => inv_update hs h,
   fun _ _ _ hs h => inv_delete hs h,
   fun _ hs e he happ _r hval => (entryOK_file (hs e he) happ hval).1⟩

/-- Witness for C2 at concrete stores: the invariant holds after saving a
fresh record, after an ownership-changing update, and after a delete. -/
theorem C2_witness :
    Inv (db.SaveFileRecord sAliceFile ⟨"h", "n", "", 0, 0, "bob", "", ""⟩) ∧
    Inv sAliceFileSys ∧ Inv (⟨[], false⟩ : Store) :=
  ⟨C2_partition_owner_invariant.1 sAliceFile ⟨"h", "n", "", 0, 0, "bob", "", ""⟩ (by decide),
   C2_partition_owner_invariant.2.1 sAliceFile "g" "n" "" sAliceFileSys (by decide) (by decide),
   C2_partition_owner_invariant.2.2.1 sAliceFile "g" (⟨[], false⟩ : Store) (by decide) (by decide)⟩

/-- C4 (counterexample): `SaveFileRecord` does not fail when a record with
the same id already exists — it overwrites the stored record, so the
existing record is not left unchanged. -/
theorem C4_counterexample :
    sAliceFile.get "alice" AppID (FileKeyPfx ++ "g") =
      some (.file ⟨"g", "doc", "", 0, 0, "alice", "", ""⟩) ∧
    (db.SaveFileRecord sAliceFile ⟨"g", "doc2", "", 0, 0, "alice", "", ""⟩).get "alice" AppID
      (FileKeyPfx ++ "g") = some (.file ⟨"g", "doc2", "", 0, 0, "alice", "", ""⟩) ∧
    Val.file ⟨"g", "doc2", "", 0, 0, "alice", "", ""⟩ ≠
      Val.file ⟨"g", "doc", "", 0, 0, "alice", "", ""⟩ := by
  decide

/-- C4 (amended): `SaveFileRecord` never fails; it performs an idempotent
upsert into the partition named by the record's owner, overwriting any
record already stored under the same id there, and touching nothing else. -/
theorem C4_save_upsert (s : Store) (record : FileRecord) :
    (db.SaveFileRecord s record).get (partitionFor record.OwnerID) AppID
      (FileKeyPfx ++ record.ID) = some (.file record) ∧
    ∀ p a k, ¬(p = partitionFor record.OwnerID ∧ a = AppID ∧ k = FileKeyPfx ++ record.ID) →
      (db.SaveFileRecord s record).get p a k = s.get p a k :=
  ⟨get_set_self s (partitionFor record.OwnerID) AppID (FileKeyPfx ++ record.ID) (.file record),
   fun p a k h => get_set_other s (partitionFor record.OwnerID) AppID
     (FileKeyPfx ++ record.ID) p a k (.file record) h⟩

/-- Witness for C4 (amended) at a concrete store. -/
theorem C4_witness :
    (db.SaveFileRecord sAliceFile ⟨"h", "n", "", 0, 0, "bob", "", ""⟩).get (partitionFor "bob")
      AppID (FileKeyPfx ++ "h") = some (.file ⟨"h", "n", "", 0, 0, "bob", "", ""⟩) ∧
    (db.SaveFileRecord sAliceFile ⟨"h", "n", "", 0, 0, "bob", "", ""⟩).get "x" "y" "z" =
      sAliceFile.get "x" "y" "z" :=
  ⟨(C4_save_upsert sAliceFile ⟨"h", "n", "", 0, 0, "bob", "", ""⟩).1,
   (C4_save_upsert sAliceFile ⟨"h", "n", "", 0, 0, "bob", "", ""⟩).2 "x" "y" "z" (by decide)⟩

/-- C9: for an existing persona, `UpsertClient` updates only name, recovery
code and last-active; the stored id and `IsAdmin` flag are preserved, the
record stays in the system partition, and no other registry entry changes. -/
theorem C9_upsert_preserves_admin (s : Store) (id name rc : String) (t : Int)
    (c : ClientRecord) (hc : db.GetClient s id = .ok c) :
    db.GetClient (db.UpsertClient s id name rc t) id = .ok ⟨c.ID, name, rc, t, c.IsAdmin⟩ ∧
    (db.UpsertClient s id name rc t).get SystemPersona AppID (ClientKeyPfx ++ id) =
      some (.client ⟨c.ID, name, rc, t, c.IsAdmin⟩) ∧
    ∀ p a k, ¬(p = SystemPersona ∧ a = AppID ∧ k = ClientKeyPfx ++ id) →
      (db.UpsertClient s id name rc t).get p a k = s.get p a k := by
  have e1 : db.UpsertClient s id name rc t = Store.set s SystemPersona AppID
      (ClientKeyPfx ++ id)
      (.client { c with Name := name, RecoveryCode := rc, LastActive := t }) := by
    unfold db.UpsertClient
    rw [hc]
  rw [e1]
  refine ⟨?_, ?_, ?_⟩
  · unfold db.GetClient getRecordClient
    rw [get_set_self]
    rfl
  · exact get_set_self _ _ _ _ _
  · intro p a k h
    exact get_set_other _ _ _ _ _ _ _ _ h

/-- Witness for C9 at a concrete store: the `IsAdmin` flag survives the
upsert. -/
theorem C9_witness :
    db.GetClient (db.UpsertClient sAdminU1 "u1" "New" "RC2" 9) "u1" =
      .ok ⟨"u1", "New", "RC2", 9, true⟩ ∧
    (db.UpsertClient sAdminU1 "u1" "New" "RC2" 9).get "x" "y" "z" = sAdminU1.get "x" "y" "z" :=
  ⟨(C9_upsert_preserves_admin sAdminU1 "u1" "New" "RC2" 9 ⟨"u1", "Root", "RC", 0, true⟩
      (by decide)).1,
   (C9_upsert_preserves_admin sAdminU1 "u1" "New" "RC2" 9 ⟨"u1", "Root", "RC", 0, true⟩
      (by decide)).2.2 "x" "y" "z" (by decide)⟩

theorem del_ok_of_get {s : Store} {p a k : String} {v : Val} (h : s.get p a k = some v) :
    s.del p a k = .ok ⟨s.entries.filter (fun e => ! e.isAt p a k), s.ioFault⟩ := by
  unfold Store.del
  rw [if_pos]
  exact List.any_eq_true.mpr ⟨_, get_some_mem h, isAt_self p a k v⟩

theorem get_filter_self (s : Store) (p a k : String) (io : Bool) :
    (⟨s.entries.filter (fun e => ! e.isAt p a k), io⟩ : Store).get p a k = none := by
  unfold Store.get
  rw [Option.map_eq_none', List.find?_eq_none]
  intro e he
  have h2 := (List.mem_filter.mp he).2
  simpa using h2

/-- C3 (counterexample): an administrator (`u1`) deleting its own persona is
NOT rejected: the handler answers success and the record is removed, against
the claimed `Forbidden` with an unchanged record.  (The repository's own
test expects exactly this success.) -/
theorem C3_counterexample :
    api.DeleteClient sAdminU1 "u1" "u1" = (.ok, (⟨[], false⟩ : Store)) ∧
    api.Status.ok ≠ api.Status.forbidden ∧
    db.GetClient (⟨[], false⟩ : Store) "u1" = .error () := by
  decide

/-- C3 (amended): the self-demotion guard answers 400 Bad Request (not
`Forbidden`) and leaves the store unchanged, while self-deletion is not
prevented at all: for any administrator caller whose id is not the literal
`"admin"`, deleting the own persona succeeds and removes the record. -/
theorem C3_self_protection (s : Store) (selfId : String) (c : ClientRecord)
    (hc : db.GetClient s selfId = .ok c) (hadm : c.IsAdmin = true)
    (hne : selfId ≠ "") (hna : selfId ≠ "admin") :
    (∀ name rc, name ≠ "" → rc ≠ "" →
      api.UpdateClient s selfId selfId name rc false = (.badRequest, s)) ∧
    ∃ s', api.DeleteClient s selfId selfId = (.ok, s') ∧ db.GetClient s' selfId = .error () := by
  have hadm2 : api.isAdmin s selfId = true := by
    unfold api.isAdmin
    rw [hc]
    simp [hne, hadm]
  have hget : s.get SystemPersona AppID (ClientKeyPfx ++ selfId) = some (.client c) ∨
      ∃ r, s.get SystemPersona AppID (ClientKeyPfx ++ selfId) = some (.file r) := by
    unfold db.GetClient getRecordClient at hc
    cases hg : s.get SystemPersona AppID (ClientKeyPfx ++ selfId) with
    | none => rw [hg] at hc; exact Except.noConfusion hc
    | some v =>
      cases v with
      | client c2 =>
        rw [hg] at hc
        have hcc : c2 = c := by simpa [jsonToClient] using hc
        exact Or.inl (by rw [hcc])
      | file r => exact Or.inr ⟨r, rfl⟩
  constructor
  · intro name rc hn hr
    unfold api.UpdateClient
    rw [hadm2]
    simp [hn, hr]
  · obtain ⟨v, hv⟩ : ∃ v, s.get SystemPersona AppID (ClientKeyPfx ++ selfId) = some v := by
      rcases hget with h | ⟨r, h⟩
      · exact ⟨_, h⟩
      · exact ⟨_, h⟩
    refine ⟨⟨s.entries.filter
      (fun e => ! e.isAt SystemPersona AppID (ClientKeyPfx ++ selfId)), s.ioFault⟩, ?_, ?_⟩
    · unfold api.DeleteClient
      rw [hadm2]
      simp only [Bool.not_true, Bool.false_eq_true, if_false]
      rw [if_neg hna]
      unfold db.DeleteClient
      rw [del_ok_of_get hv]
    · unfold db.GetClient getRecordClient
      rw [get_filter_self]

/-- Witness for C3 (amended) at the concrete administrator store. -/
theorem C3_witness :
    api.UpdateClient sAdminU1 "u1" "u1" "Root" "RC" false = (.badRequest, sAdminU1) ∧
    ∃ s', api.DeleteClient sAdminU1 "u1" "u1" = (.ok, s') ∧ db.GetClient s' "u1" = .error () :=
  ⟨(C3_self_protection sAdminU1 "u1" ⟨"u1", "Root", "RC", 0, true⟩ (by decide) (by decide)
      (by decide) (by decide)).1 "Root" "RC" (by decide) (by decide),
   (C3_self_protection sAdminU1 "u1" ⟨"u1", "Root", "RC", 0, true⟩ (by decide) (by decide)
      (by decide) (by decide)).2⟩

/-- C5 (counterexample): the freshly generated recovery code is accepted
with no uniqueness check: a second caller whose candidate code collides
with persona `a`'s stored code `X` is accepted, and afterwards two distinct
personas (`a` and `X-id`) share the recovery code `X`. -/
theorem C5_counterexample :
    api.UpdateClientName (fun c => c ++ "-id") 5 sCodeX "hdr" "Bea" "X" =
      (.ok, sCodeXTwice, some ("X-id", "X")) ∧
    db.GetClient sCodeXTwice "a" = .ok ⟨"a", "Ann", "X", 0, false⟩ ∧
    db.GetClient sCodeXTwice "X-id" = .ok ⟨"X-id", "Bea", "X", 5, false⟩ ∧
    ("a" : String) ≠ "X-id" := by
  decide

/-- C5 (amended): when the caller has no stored non-empty recovery code,
the handler accepts the generated candidate code verbatim — regardless of
any other persona already holding that code (no uniqueness check, no
regeneration). -/
theorem C5_code_accepted_unchecked (derive : String → String) (now : Int) (s : Store)
    (clientID name fresh : String) (hid : clientID ≠ "") (hname : name ≠ "")
    (hnocode : ∀ c, db.GetClient s clientID = .ok c → c.RecoveryCode = "") :
    api.UpdateClientName derive now s clientID name fresh =
      (.ok, db.UpsertClient s (derive fresh) name fresh now, some (derive fresh, fresh)) := by
  unfold api.UpdateClientName
  rw [if_neg hid, if_neg hname]
  cases hg : db.GetClient s clientID with
  | error e => simp [hg]
  | ok c =>
    have hcode := hnocode c hg
    simp [hg, hcode]

/-- Witness for C5 (amended): saving a name into an empty directory accepts
the candidate code `FRESH` as generated. -/
theorem C5_witness :
    api.UpdateClientName (fun c => c) 7 (⟨[], false⟩ : Store) "hdr" "Ada" "FRESH" =
      (.ok, db.UpsertClient (⟨[], false⟩ : Store) "FRESH" "Ada" "FRESH" 7,
        some ("FRESH", "FRESH")) :=
  C5_code_accepted_unchecked (fun c => c) 7 ⟨[], false⟩ "hdr" "Ada" "FRESH" (by decide)
    (by decide) (fun _ h => Except.noConfusion h)

/-- C7 (counterexample): with a configured secret and an existing caller
persona, supplying an EMPTY secret is rejected with 400 Bad Request (gin's
`binding:"required"`), not `Forbidden` as claimed. -/
theorem C7_counterexample :
    api.ActivateAdmin "s3cret" sCodeX "a" "" = (.badRequest, sCodeX) ∧
    api.Status.badRequest ≠ api.Status.forbidden := by
  decide

/-- C7 (amended): escalation succeeds (and then sets the caller's `IsAdmin`
to true) precisely when the client id and the supplied secret are non-empty,
the configured secret is non-empty and matched, and the caller's persona
record exists; every failure leaves the store untouched; a wrong or
unconfigured secret (with well-formed request fields) yields `Forbidden`,
while an empty supplied secret or missing client id yields Bad Request and
a missing persona record yields an internal error. -/
theorem C7_escalation (adminSecret : String) (s : Store) (clientID secret : String) :
    ((api.ActivateAdmin adminSecret s clientID secret).1 = .ok ↔
      clientID ≠ "" ∧ secret ≠ "" ∧ adminSecret ≠ "" ∧ secret = adminSecret ∧
        ∃ c, db.GetClient s clientID = .ok c) ∧
    ((api.ActivateAdmin adminSecret s clientID secret).1 ≠ .ok →
      (api.ActivateAdmin adminSecret s clientID secret).2 = s) ∧
    (∀ c, db.GetClient s clientID = .ok c →
      (api.ActivateAdmin adminSecret s clientID secret).1 = .ok →
      (api.ActivateAdmin adminSecret s clientID secret).2 =
        Store.set s SystemPersona AppID (ClientKeyPfx ++ clientID)
          (.client { c with IsAdmin := true })) ∧
    (clientID ≠ "" → secret ≠ "" → (adminSecret = "" ∨ secret ≠ adminSecret) →
      (api.ActivateAdmin adminSecret s clientID secret).1 = .forbidden) := by
  unfold api.ActivateAdmin db.UpdateClientAdminStatus
  by_cases h1 : clientID = ""
  · simp [h1]
  rw [if_neg h1]
  by_cases h2 : secret = ""
  · simp [h1, h2]
  rw [if_neg h2]
  by_cases h3 : adminSecret = "" ∨ secret ≠ adminSecret
  · rw [if_pos (by simpa using h3)]
    rcases h3 with h3 | h3 <;> simp [h1, h2, h3]
  · rw [if_neg (by simpa using h3)]
    push_neg at h3
    cases hg : db.GetClient s clientID with
    | error e => simp [hg, h3.1, h3.2]
    | ok c => simp [hg, h1, h2, h3.1, h3.2, Bind.bind, Except.bind, pure, Except.pure]

/-- Witness for C7 (amended): with persona `a` present, the correct secret
escalates and a wrong one is forbidden. -/
theorem C7_witness :
    (api.ActivateAdmin "s3cret" sCodeX "a" "s3cret").1 = .ok ∧
    (api.ActivateAdmin "s3cret" sCodeX "a" "wrong").1 = .forbidden :=
  ⟨(C7_escalation "s3cret" sCodeX "a" "s3cret").1.mpr
    ⟨by decide, by decide, by decide, rfl, ⟨⟨"a", "Ann", "X", 0, false⟩, by decide⟩⟩,
   (C7_escalation "s3cret" sCodeX "a" "wrong").2.2.2 (by decide) (by decide)
    (Or.inr (by decide))⟩

/-- Normal form of a successful `ListFiles` run: Go's two-step index
clamping equals a plain drop/take pagination window on the sorted filtered
set, and the reported total is the full filtered count. -/
theorem listFiles_eq (s : Store) (opts : ListFilesOptions) {all : List FileRecord}
    (hg : db.listGather s opts = .ok all) (hoff : 0 ≤ opts.Offset) :
    db.ListFiles s opts = .ok
      ⟨((List.insertionSort db.uploadGE (db.listFilter s opts all)).drop
          opts.Offset.toNat).take
          (if opts.Limit ≤ 0 then (db.listFilter s opts all).length else opts.Limit.toNat),
        ((db.listFilter s opts all).length : Int)⟩ := by
  unfold db.ListFiles
  rw [hg]
  dsimp only
  set F := db.listFilter s opts all with hF
  set L := List.insertionSort db.uploadGE F with hLdef
  have hL : L.length = F.length := List.length_insertionSort db.uploadGE F
  rw [if_neg (by split <;> omega)]
  refine congrArg Except.ok ?_
  refine congrArg (FileListResponse.mk · _) ?_
  by_cases hc : opts.Offset > (F.length : Int)
  · rw [if_pos hc]
    have hA : L.drop ((F.length : Int)).toNat = [] :=
      List.drop_eq_nil_of_le (by omega)
    have hB : L.drop opts.Offset.toNat = [] :=
      List.drop_eq_nil_of_le (by omega)
    rw [hA, hB, List.take_nil, List.take_nil]
  · rw [if_neg hc]
    by_cases hlim : opts.Limit ≤ 0
    · rw [if_pos (Or.inl hlim), if_pos hlim, List.take_eq_take, List.length_drop, hL]
      omega
    · rw [if_neg hlim]
      by_cases hoc : opts.Offset + opts.Limit > (F.length : Int)
      · rw [if_pos (Or.inr hoc), List.take_eq_take, List.length_drop, hL]
        omega
      · rw [if_neg (by push_neg; exact ⟨by omega, by omega⟩), List.take_eq_take,
          List.length_drop, hL]
        omega

/-- The enumeration phase ignores the pagination fields. -/
theorem listGather_congr (s : Store) (srch ow : String) (lim off lim' off' : Int) :
    db.listGather s ⟨srch, ow, lim, off⟩ = db.listGather s ⟨srch, ow, lim', off'⟩ := rfl

/-- The filter phase ignores the owner and pagination fields. -/
theorem listFilter_congr (s : Store) (srch ow ow' : String) (lim off lim' off' : Int)
    (all : List FileRecord) :
    db.listFilter s ⟨srch, ow, lim, off⟩ all = db.listFilter s ⟨srch, ow', lim', off'⟩ all := rfl

/-- C10: with a non-empty owner filter and a non-negative offset,
`ListFiles` never fails — a failing partition enumeration (missing
partition or storage fault) is swallowed into an empty page with total 0 —
while in the cross-partition administrator path (empty owner) an
enumeration failure is surfaced as an error. -/
theorem C10_owner_errors_swallowed (s : Store) (opts : ListFilesOptions) :
    (opts.OwnerID ≠ "" → 0 ≤ opts.Offset → ∃ resp, db.ListFiles s opts = .ok resp) ∧
    (opts.OwnerID ≠ "" → 0 ≤ opts.Offset →
      s.getAppStore opts.OwnerID AppID = .error () → db.ListFiles s opts = .ok ⟨[], 0⟩) ∧
    (opts.OwnerID = "" → s.dumpApp AppID = .error () → db.ListFiles s opts = .error ()) := by
  refine ⟨?_, ?_, ?_⟩
  · intro how hoff
    have : ∃ all, db.listGather s opts = .ok all := by
      unfold db.listGather
      rw [if_pos how]
      cases s.getAppStore opts.OwnerID AppID with
      | error e => exact ⟨[], rfl⟩
      | ok appStore => exact ⟨_, rfl⟩
    obtain ⟨all, hall⟩ := this
    exact ⟨_, listFiles_eq s opts hall hoff⟩
  · intro how hoff herr
    have hall : db.listGather s opts = .ok [] := by
      unfold db.listGather
      rw [if_pos how, herr]
    have h := listFiles_eq s opts hall hoff
    rw [h]
    have hfil : db.listFilter s opts [] = [] := rfl
    rw [hfil]
    simp
  · intro how herr
    unfold db.ListFiles db.listGather
    rw [if_neg (by simp [how]), herr]

/-- Witness for C10: a missing partition (`bob`) yields the empty page, and
a dump fault with the admin filter yields an error. -/
theorem C10_witness :
    db.ListFiles sThreeFiles ⟨"", "bob", 8, 0⟩ = .ok ⟨[], 0⟩ ∧
    db.ListFiles (⟨[], true⟩ : Store) ⟨"", "", 8, 0⟩ = .error () :=
  ⟨(C10_owner_errors_swallowed sThreeFiles ⟨"", "bob", 8, 0⟩).2.1 (by decide) (by decide)
    (by decide),
   (C10_owner_errors_swallowed (⟨[], true⟩ : Store) ⟨"", "", 8, 0⟩).2.2 rfl (by decide)⟩

/-- C6: a successful `ListFiles` reports as total the full filtered count
(independent of pagination), returns the window `[offset, offset+limit)` of
the descending-by-upload-time sort of the filtered set (all remaining
elements when the limit is non-positive), yields an empty page when the
offset reaches the total, and no non-negative offset/limit combination can
turn a successful enumeration into an error. -/
theorem C6_pagination (s : Store) (srch ow : String) (lim off : Int)
    (resp : FileListResponse) (hoff : 0 ≤ off)
    (h : db.ListFiles s ⟨srch, ow, lim, off⟩ = .ok resp) :
    ∃ gathered, db.listGather s ⟨srch, ow, lim, off⟩ = .ok gathered ∧
      (let filtered := db.listFilter s ⟨srch, ow, lim, off⟩ gathered
       let sorted := List.insertionSort db.uploadGE filtered
       resp.Total = (filtered.length : Int) ∧
       List.Sorted db.uploadGE sorted ∧
       resp.Files = (sorted.drop off.toNat).take
         (if lim ≤ 0 then filtered.length else lim.toNat) ∧
       (resp.Total ≤ off → resp.Files = []) ∧
       ∀ lim' off', 0 ≤ off' → ∃ resp', db.ListFiles s ⟨srch, ow, lim', off'⟩ = .ok resp' ∧
         resp'.Total = resp.Total) := by
  have hgather : ∃ all, db.listGather s ⟨srch, ow, lim, off⟩ = .ok all := by
    unfold db.ListFiles at h
    cases hg : db.listGather s ⟨srch, ow, lim, off⟩ with
    | error e => rw [hg] at h; exact Except.noConfusion h
    | ok all => exact ⟨all, rfl⟩
  obtain ⟨all, hall⟩ := hgather
  have heq := listFiles_eq s ⟨srch, ow, lim, off⟩ hall hoff
  have hresp : resp = ⟨((List.insertionSort db.uploadGE
      (db.listFilter s ⟨srch, ow, lim, off⟩ all)).drop off.toNat).take
      (if lim ≤ 0 then (db.listFilter s ⟨srch, ow, lim, off⟩ all).length else lim.toNat),
      ((db.listFilter s ⟨srch, ow, lim, off⟩ all).length : Int)⟩ := by
    have h2 := h.symm.trans heq
    simpa using h2
  refine ⟨all, hall, ?_, ?_, ?_, ?_, ?_⟩
  · rw [hresp]
  · exact List.sorted_insertionSort db.uploadGE _
  · rw [hresp]
  · intro hle
    rw [hresp]
    rw [hresp] at hle
    dsimp only at hle ⊢
    rw [List.drop_eq_nil_of_le, List.take_nil]
    rw [List.length_insertionSort]
    omega
  · intro lim' off' hoff'
    have hall' : db.listGather s ⟨srch, ow, lim', off'⟩ = .ok all :=
      (listGather_congr s srch ow lim' off' lim off).trans hall
    refine ⟨_, listFiles_eq s ⟨srch, ow, lim', off'⟩ hall' hoff', ?_⟩
    rw [hresp]
    dsimp only
    rw [listFilter_congr s srch ow ow lim' off' lim off all]

/-- Witness for C6 at a concrete three-record store with limit 2, offset 1. -/
theorem C6_witness :
    ∃ gathered, db.listGather sThreeFiles ⟨"", "a", 2, 1⟩ = .ok gathered := by
  obtain ⟨g, hg, _⟩ := C6_pagination sThreeFiles "" "a" 2 1
    ⟨[⟨"z", "z", "", 0, 20, "a", "Unknown", ""⟩, ⟨"y", "y", "", 0, 10, "a", "Unknown", ""⟩], 3⟩
    (by decide) (by decide)
  exact ⟨g, hg⟩

/-- After upserting a persona with code `code` (non-empty) into `s`, a
recovery lookup with `code` finds a persona whose id derives from `code`
and whose name is the upserted name — provided `code` is unique among the
stored personas (the uniqueness hypothesis pins down which record the
directory scan returns). -/
theorem recover_after_upsert (derive : String → String) (now : Int) (s : Store)
    (name code : String) (s' : Store)
    (hio : s.ioFault = false) (hcode : code ≠ "")
    (hs' : db.UpsertClient s (derive code) name code now = s')
    (huniq : ∀ e ∈ s'.entries, e.persona = SystemPersona → e.app = AppID →
      hasPfx e.key ClientKeyPfx = true → (jsonToClient e.val).RecoveryCode = code →
      e.key = ClientKeyPfx ++ derive code) :
    ∃ pers, api.RecoverPersona derive s' code = (.ok, some (pers, derive code, name)) := by
  obtain ⟨cc, hccn, hccc, hseq⟩ : ∃ cc : ClientRecord, cc.Name = name ∧
      cc.RecoveryCode = code ∧
      s' = Store.set s SystemPersona AppID (ClientKeyPfx ++ derive code) (.client cc) := by
    rw [← hs']
    unfold db.UpsertClient
    cases hg2 : db.GetClient s (derive code) with
    | error e => exact ⟨⟨derive code, name, code, now, false⟩, rfl, rfl, rfl⟩
    | ok c2 =>
      exact ⟨{ c2 with Name := name, RecoveryCode := code, LastActive := now }, rfl, rfl, rfl⟩
  subst hseq
  set K := ClientKeyPfx ++ derive code with hK
  have hget : (Store.set s SystemPersona AppID K (.client cc)).get SystemPersona AppID K =
      some (.client cc) := get_set_self s SystemPersona AppID K (.client cc)
  have hgrc : getRecordClient (Store.set s SystemPersona AppID K (.client cc))
      SystemPersona AppID K = .ok cc := by
    unfold getRecordClient
    rw [hget]
    rfl
  have hAS : (Store.set s SystemPersona AppID K (.client cc)).getAppStore SystemPersona AppID =
      .ok ((K, Val.client cc) ::
        ((s.entries.filter (fun e => ! e.isAt SystemPersona AppID K)).filter
          (fun e => e.persona == SystemPersona && e.app == AppID)).map
          (fun e => (e.key, e.val))) := by
    unfold Store.getAppStore Store.hasPersona
    rw [if_neg]
    · unfold Store.set
      dsimp only
      rw [List.filter_cons]
      simp
    · unfold Store.set
      dsimp only
      simp [hio]
  have hGCBR : db.GetClientByRecoveryCode
      (Store.set s SystemPersona AppID K (.client cc)) code = .ok cc := by
    unfold db.GetClientByRecoveryCode
    rw [hAS]
    simp only [Bind.bind, Except.bind]
    split
    · rename_i kv hfind
      have hpkv := List.find?_some hfind
      rw [Bool.and_eq_true] at hpkv
      obtain ⟨hpfx, hmatch⟩ := hpkv
      cases hgr : getRecordClient (Store.set s SystemPersona AppID K (.client cc))
          SystemPersona AppID kv.1 with
      | error e =>
        rw [hgr] at hmatch
        exact Bool.noConfusion hmatch
      | ok cstar =>
        rw [hgr] at hmatch
        have hcode2 : cstar.RecoveryCode = code := by simpa using hmatch
        have hkey : kv.1 = K := by
          unfold getRecordClient at hgr
          cases hget2 : (Store.set s SystemPersona AppID K (.client cc)).get
              SystemPersona AppID kv.1 with
          | none => rw [hget2] at hgr; exact Except.noConfusion hgr
          | some vstar =>
            rw [hget2] at hgr
            have hvc : jsonToClient vstar = cstar := by simpa using hgr
            have hmem := get_some_mem hget2
            exact huniq _ hmem rfl rfl hpfx (by rw [hvc]; exact hcode2)
        have hceq : cstar = cc := by
          rw [hkey] at hgr
          exact (Except.ok.inj (hgrc.symm.trans hgr)).symm
        dsimp only
        rw [hceq]
    · rename_i hfind
      exfalso
      apply List.find?_eq_none.mp hfind (K, Val.client cc) (List.mem_cons_self _ _)
      dsimp only
      rw [hgrc, Bool.and_eq_true]
      exact ⟨hasPfx_append _ _, by dsimp only; rw [hccc]; exact beq_self_eq_true code⟩
  unfold api.RecoverPersona
  rw [if_neg hcode, hGCBR]
  refine ⟨if cc.IsAdmin then "admin" else "client", ?_⟩
  dsimp only
  rw [hccc, hccn]

/-- C8: saving a name yields a recovery code `C` and an id derived from
`C`; when `C` is unique among the stored personas, a recovery lookup with
`C` returns that derived id and the saved name. -/
theorem C8_recovery_roundtrip (derive : String → String) (now : Int) (s : Store)
    (clientID name fresh : String) (s' : Store) (idr code : String)
    (hio : s.ioFault = false) (hcid : clientID ≠ "") (hname : name ≠ "")
    (hfresh : fresh ≠ "")
    (h : api.UpdateClientName derive now s clientID name fresh = (.ok, s', some (idr, code)))
    (huniq : ∀ e ∈ s'.entries, e.persona = SystemPersona → e.app = AppID →
      hasPfx e.key ClientKeyPfx = true → (jsonToClient e.val).RecoveryCode = code →
      e.key = ClientKeyPfx ++ idr) :
    ∃ pers, api.RecoverPersona derive s' code = (.ok, some (pers, idr, name)) := by
  unfold api.UpdateClientName at h
  rw [if_neg hcid, if_neg hname] at h
  dsimp only at h
  have main : ∀ rc : String, rc ≠ "" →
      (api.Status.ok, db.UpsertClient s (derive rc) name rc now,
        some (derive rc, rc)) = ((.ok, s', some (idr, code)) :
          api.Status × Store × Option (String × String)) →
      ∃ pers, api.RecoverPersona derive s' code = (.ok, some (pers, idr, name)) := by
    intro rc hrcne heq
    have hs' : db.UpsertClient s (derive rc) name rc now = s' :=
      congrArg (fun t => t.2.1) heq
    have hpair : (derive rc, rc) = (idr, code) :=
      Option.some.inj (congrArg (fun t => t.2.2) heq)
    have hidr : derive rc = idr := congrArg Prod.fst hpair
    have hcode : rc = code := congrArg Prod.snd hpair
    have huniq' : ∀ e ∈ s'.entries, e.persona = SystemPersona → e.app = AppID →
        hasPfx e.key ClientKeyPfx = true → (jsonToClient e.val).RecoveryCode = rc →
        e.key = ClientKeyPfx ++ derive rc := by
      rw [hidr, hcode]
      exact huniq
    have hconc := recover_after_upsert derive now s name rc s' hio hrcne hs' huniq'
    rw [hidr, hcode] at hconc
    exact hconc
  cases hget : db.GetClient s clientID with
  | error e =>
    rw [hget] at h
    dsimp only at h
    exact main fresh hfresh h
  | ok c =>
    rw [hget] at h
    dsimp only at h
    by_cases hrc : c.RecoveryCode ≠ ""
    · rw [if_pos hrc] at h
      exact main c.RecoveryCode hrc h
    · rw [if_neg hrc] at h
      exact main fresh hfresh h

/-- Witness for C8: a round trip through a concrete empty store, with the
identity function as the id derivation. -/
theorem C8_witness :
    ∃ pers, api.RecoverPersona (fun c => c) sAda "FRESH" = (.ok, some (pers, "FRESH", "Ada")) :=
  C8_recovery_roundtrip (fun c => c) 7 ⟨[], false⟩ "hdr" "Ada" "FRESH" sAda "FRESH" "FRESH"
    rfl (by decide) (by decide) (by decide) (by decide) (by decide)

theorem isAt_false_of_persona {e : SEntry} {p a k : String} (h : e.persona ≠ p) :
    e.isAt p a k = false := by
  rw [Bool.eq_false_iff]
  intro hc
  exact h (isAt_iff.mp hc).1

/-- The single-partition enumeration path of `listGather`, made explicit. -/
theorem listGather_owner_eq (s2 : Store) (srch ow : String) (lim off : Int)
    (l : List (String × Val)) (how : ow ≠ "") (hsome : s2.getAppStore ow AppID = .ok l) :
    db.listGather s2 ⟨srch, ow, lim, off⟩ = .ok (l.filterMap (fun kv =>
      if hasPfx kv.1 FileKeyPfx then (getRecordFile s2 ow AppID kv.1).toOption else none)) := by
  unfold db.listGather
  rw [if_pos how, hsome]

/-- With an empty search string, the filter phase is owner-name resolution
of every gathered record. -/
theorem mem_listFilter_nosearch (s2 : Store) (ow : String) (lim off : Int)
    (all : List FileRecord) (r : FileRecord) :
    r ∈ db.listFilter s2 ⟨"", ow, lim, off⟩ all ↔
      ∃ g ∈ all, r = db.resolveOwnerName s2 g := by
  unfold db.listFilter
  rw [List.mem_filterMap]
  constructor
  · rintro ⟨g, hg, hfg⟩
    refine ⟨g, hg, ?_⟩
    have h2 : some (db.resolveOwnerName s2 g) = some r := by simpa using hfg
    exact (Option.some.inj h2).symm
  · rintro ⟨g, hg, rfl⟩
    exact ⟨g, hg, by simp⟩

/-- `ListFiles` with zero offset and zero (= unlimited) limit returns the
whole sorted filtered set. -/
theorem listFiles_all (s2 : Store) (ow : String) {all : List FileRecord}
    (hg : db.listGather s2 ⟨"", ow, 0, 0⟩ = .ok all) :
    db.ListFiles s2 ⟨"", ow, 0, 0⟩ = .ok
      ⟨List.insertionSort db.uploadGE (db.listFilter s2 ⟨"", ow, 0, 0⟩ all),
        ((db.listFilter s2 ⟨"", ow, 0, 0⟩ all).length : Int)⟩ := by
  have h := listFiles_eq s2 ⟨"", ow, 0, 0⟩ hg (le_refl 0)
  rw [h]
  refine congrArg Except.ok (congrArg (FileListResponse.mk · _) ?_)
  rw [if_pos (le_refl (0 : Int))]
  have h0 : ((0 : Int)).toNat = 0 := rfl
  rw [h0, List.drop_zero]
  exact List.take_of_length_le (le_of_eq (List.length_insertionSort _ _))

/-- Membership in the cross-partition (`DumpApp`) enumeration phase: any
fault-free store surfaces, for every entry of the depot namespace with a
file key, the record that `getRecord` reads back from its partition. -/
theorem listGather_dump_mem (s2 : Store) (lim off : Int) {gathered : List FileRecord}
    (hg : db.listGather s2 ⟨"", "", lim, off⟩ = .ok gathered)
    {e : SEntry} (hmem : e ∈ s2.entries) (happ : e.app = AppID)
    (hpfx : hasPfx e.key FileKeyPfx = true) {g : FileRecord}
    (hgr : getRecordFile s2 e.persona AppID e.key = .ok g) :
    g ∈ gathered := by
  unfold db.listGather at hg
  rw [if_neg (by simp)] at hg
  unfold Store.dumpApp at hg
  cases hio2 : s2.ioFault with
  | true =>
    rw [hio2, if_pos rfl] at hg
    exact Except.noConfusion hg
  | false =>
    rw [hio2, if_neg (by simp)] at hg
    dsimp only at hg
    rw [← Except.ok.inj hg]
    rw [List.mem_flatten]
    refine ⟨_, List.mem_map.mpr ⟨(e.persona,
      (s2.entries.filter (fun e2 => e2.persona == e.persona && e2.app == AppID)).map
        (fun e2 => (e2.key, e2.val))), ?_, rfl⟩, ?_⟩
    · refine List.mem_map.mpr ⟨e.persona, ?_, rfl⟩
      refine List.mem_dedup.mpr ?_
      refine List.mem_map.mpr ⟨e, ?_, rfl⟩
      exact List.mem_filter.mpr ⟨hmem, by simp [happ]⟩
    · refine List.mem_filterMap.mpr ⟨(e.key, e.val), ?_, ?_⟩
      · exact List.mem_map.mpr ⟨e, List.mem_filter.mpr ⟨hmem, by simp [happ]⟩, rfl⟩
      · dsimp only
        rw [if_pos hpfx, hgr]
        rfl

/-- C1 (amended): after a successful ownership change from a non-empty
stored owner to a `newOwner` whose partition differs from the old owner's,
the global index resolves the file's key to `newOwner`'s partition, the old
owner's partition no longer holds the key, a list scoped to the old owner
does not surface the file, and a list scoped to the new owner does (for an
empty `newOwner` that list is the cross-partition administrator listing,
which surfaces the file from the system partition). -/
theorem C1_ownership_move (s : Store) (id name newOwner : String) (r₀ : FileRecord)
    (s' : Store) (hinv : Inv s) (hio : s.ioFault = false)
    (hrec : db.GetFileRecord s id = .ok r₀)
    (hold : r₀.OwnerID ≠ "") (hdiff : newOwner ≠ r₀.OwnerID)
    (hdiffp : partitionFor newOwner ≠ r₀.OwnerID)
    (hupd : db.UpdateFileRecord s id name newOwner = .ok s') :
    (∃ v, s'.getGlobal AppID (FileKeyPfx ++ id) = .ok (v, partitionFor newOwner)) ∧
    s'.get r₀.OwnerID AppID (FileKeyPfx ++ id) = none ∧
    (∃ resp, db.ListFiles s' ⟨"", r₀.OwnerID, 0, 0⟩ = .ok resp ∧
      ∀ r ∈ resp.Files, r.ID ≠ id) ∧
    (∃ resp, db.ListFiles s' ⟨"", newOwner, 0, 0⟩ = .ok resp ∧
      ∃ r ∈ resp.Files, r.ID = id) := by
  have hinv' : Inv s' := inv_update hinv hupd
  obtain ⟨rr, hidrr, hres, hraw⟩ := getFileRecord_ok_elim hinv hrec
  have hro : r₀.OwnerID = rr.OwnerID := by rw [hres]; exact resolve_OwnerID s rr
  have hri : r₀.ID = id := by rw [hres, resolve_ID]; exact hidrr
  have hPold : partitionFor r₀.OwnerID = r₀.OwnerID := by
    unfold partitionFor
    rw [if_neg hold]
  have hdiffP : partitionFor r₀.OwnerID ≠ partitionFor newOwner := by
    rw [hPold]
    exact fun hh => hdiffp hh.symm
  -- invert the update
  unfold db.UpdateFileRecord at hupd
  obtain ⟨r₀x, hgx, hrest⟩ := exceptBind_ok hupd
  have hr0x : r₀x = r₀ := Except.ok.inj (hgx.symm.trans hrec)
  dsimp only at hrest
  rw [hr0x] at hrest
  rw [if_pos hdiffP] at hrest
  obtain ⟨s1, hmv, hset'⟩ := exceptBind_ok hrest
  have hs'eq : s' = Store.set s1 (partitionFor newOwner) AppID
      (FileKeyPfx ++ r₀.ID)
      (.file { r₀ with OriginalName := name, OwnerID := newOwner }) := by
    have h2 : (pure (Store.set s1 (partitionFor newOwner) AppID (FileKeyPfx ++ r₀.ID)
        (.file { r₀ with OriginalName := name, OwnerID := newOwner })) :
        Except Unit Store) = .ok s' := hset'
    simpa [pure, Except.pure] using h2.symm
  unfold Store.move at hmv
  have hraw' : s.get (partitionFor r₀.OwnerID) AppID (FileKeyPfx ++ id) =
      some (.file rr) := by
    rw [hro]
    exact hraw
  rw [hraw'] at hmv
  have hs1 : Store.set ⟨s.entries.filter
      (fun e => ! e.isAt (partitionFor r₀.OwnerID) AppID (FileKeyPfx ++ id)), s.ioFault⟩
      (partitionFor newOwner) AppID (FileKeyPfx ++ id) (.file rr) = s1 :=
    Except.ok.inj hmv
  -- normal form of the final store
  have hkeyeq : FileKeyPfx ++ r₀.ID = FileKeyPfx ++ id := by rw [hri]
  have hs'entries : s'.entries =
      ⟨partitionFor newOwner, AppID, FileKeyPfx ++ id,
        .file { r₀ with OriginalName := name, OwnerID := newOwner }⟩ ::
      (((s.entries.filter (fun e => ! e.isAt (partitionFor r₀.OwnerID) AppID
          (FileKeyPfx ++ id))).filter (fun e => ! e.isAt (partitionFor newOwner) AppID
          (FileKeyPfx ++ id))).filter (fun e => ! e.isAt (partitionFor newOwner) AppID
          (FileKeyPfx ++ id))) := by
    rw [hs'eq, ← hs1]
    unfold Store.set
    dsimp only
    rw [hkeyeq, List.filter_cons]
    simp [isAt_self]
  have hs'io : s'.ioFault = false := by
    rw [hs'eq, ← hs1]
    exact hio
  -- (B) the old partition no longer holds the key
  have hBnone : s'.get r₀.OwnerID AppID (FileKeyPfx ++ id) = none := by
    rw [get_none_iff, hs'entries]
    intro e he
    rcases List.mem_cons.mp he with he | he
    · rw [he]
      exact isAt_false_of_persona (by
        dsimp only
        exact hdiffp)
    · have h2 := (List.mem_filter.mp (List.mem_filter.mp (List.mem_filter.mp he).1).1).2
      rw [Bool.not_eq_true'] at h2
      rw [← hPold]
      exact h2
  refine ⟨?_, hBnone, ?_, ?_⟩
  -- (A) the global index resolves to the new owner's partition
  · refine ⟨.file { r₀ with OriginalName := name, OwnerID := newOwner }, ?_⟩
    unfold Store.getGlobal
    rw [hs'entries, List.find?_cons_of_pos]
    simp
  -- (C) a list scoped to the old owner does not surface the id
  · cases has : s'.getAppStore r₀.OwnerID AppID with
    | error e =>
      have hg : db.listGather s' ⟨"", r₀.OwnerID, 0, 0⟩ = .ok [] := by
        unfold db.listGather
        rw [if_pos hold, has]
      refine ⟨_, listFiles_all s' r₀.OwnerID hg, ?_⟩
      intro r hr
      have hfil : db.listFilter s' ⟨"", r₀.OwnerID, 0, 0⟩ [] = [] := rfl
      rw [hfil] at hr
      simp at hr
    | ok l =>
      have hg := listGather_owner_eq s' "" r₀.OwnerID 0 0 l hold has
      refine ⟨_, listFiles_all s' r₀.OwnerID hg, ?_⟩
      intro r hr
      dsimp only at hr
      rw [List.mem_insertionSort, mem_listFilter_nosearch] at hr
      obtain ⟨g, hgmem, hrg⟩ := hr
      rw [List.mem_filterMap] at hgmem
      obtain ⟨kv, _, hkv⟩ := hgmem
      by_cases hpfx : hasPfx kv.1 FileKeyPfx = true
      · rw [if_pos hpfx] at hkv
        have hgr : getRecordFile s' r₀.OwnerID AppID kv.1 = .ok g := by
          cases hgr2 : getRecordFile s' r₀.OwnerID AppID kv.1 with
          | error e => rw [hgr2] at hkv; exact Option.noConfusion hkv
          | ok g2 =>
            rw [hgr2] at hkv
            have hg2 : g2 = g := by simpa [Except.toOption] using hkv
            rw [← hg2]
        unfold getRecordFile at hgr
        cases hget4 : s'.get r₀.OwnerID AppID kv.1 with
        | none => rw [hget4] at hgr; exact Except.noConfusion hgr
        | some v =>
          rw [hget4] at hgr
          have hjson : jsonToFile v = g := by simpa using hgr
          have hmem4 := get_some_mem hget4
          have hok4 := hinv' _ hmem4
          cases v with
          | client c4 =>
            have hkey4 : kv.1 = ClientKeyPfx ++ c4.ID := (entryOK_client hok4 rfl rfl).2
            rw [hkey4] at hpfx
            rw [clientKey_not_filePfx] at hpfx
            exact Bool.noConfusion hpfx
          | file r4 =>
            have hkey4 : kv.1 = FileKeyPfx ++ r4.ID := (entryOK_file hok4 rfl rfl).2
            intro hreq
            have hrid : r4.ID = id := by
              rw [← hreq, hrg, resolve_ID, ← hjson]
              rfl
            rw [hrid] at hkey4
            rw [hkey4] at hget4
            rw [hBnone] at hget4
            exact Option.noConfusion hget4
      · rw [if_neg hpfx] at hkv
        exact Option.noConfusion hkv
  -- (D) a list scoped to the new owner surfaces the id
  · by_cases hnew0 : newOwner = ""
    · -- empty new owner: the list is the cross-partition administrator dump
      subst hnew0
      obtain ⟨gathered, hgat⟩ : ∃ gathered,
          db.listGather s' ⟨"", "", 0, 0⟩ = .ok gathered := by
        unfold db.listGather
        rw [if_neg (by simp)]
        unfold Store.dumpApp
        rw [hs'io, if_neg (by simp)]
        exact ⟨_, rfl⟩
      have hgetnew : s'.get (partitionFor "") AppID (FileKeyPfx ++ id) =
          some (.file { r₀ with OriginalName := name, OwnerID := "" }) := by
        unfold Store.get
        rw [hs'entries, List.find?_cons_of_pos]
        · rfl
        · exact isAt_self _ _ _ _
      have hgrf : getRecordFile s' (partitionFor "") AppID (FileKeyPfx ++ id) =
          .ok { r₀ with OriginalName := name, OwnerID := "" } := by
        unfold getRecordFile
        rw [hgetnew]
        rfl
      have hupdmem : { r₀ with OriginalName := name, OwnerID := "" } ∈ gathered :=
        listGather_dump_mem s' 0 0 hgat
          (e := ⟨partitionFor "", AppID, FileKeyPfx ++ id,
            .file { r₀ with OriginalName := name, OwnerID := "" }⟩)
          (by rw [hs'entries]; exact List.mem_cons_self _ _) rfl
          (hasPfx_append _ _) hgrf
      refine ⟨_, listFiles_all s' "" hgat, ?_⟩
      refine ⟨db.resolveOwnerName s' { r₀ with OriginalName := name, OwnerID := "" },
        ?_, ?_⟩
      · dsimp only
        rw [List.mem_insertionSort, mem_listFilter_nosearch]
        exact ⟨_, hupdmem, rfl⟩
      · rw [resolve_ID]
        exact hri
    · -- non-empty new owner: the single-partition path
      have hPnew : partitionFor newOwner = newOwner := by
        unfold partitionFor
        rw [if_neg hnew0]
      have hpersona : s'.hasPersona newOwner = true := by
        unfold Store.hasPersona
        rw [hs'entries]
        rw [List.any_cons]
        dsimp only
        rw [hPnew]
        simp
      have has : s'.getAppStore newOwner AppID = .ok ((s'.entries.filter
          (fun e => e.persona == newOwner && e.app == AppID)).map
            (fun e => (e.key, e.val))) := by
        unfold Store.getAppStore
        rw [if_neg]
        rw [hs'io, hpersona]
        simp
      have hg := listGather_owner_eq s' "" newOwner 0 0 _ hnew0 has
      refine ⟨_, listFiles_all s' newOwner hg, ?_⟩
      have hkvmem : (FileKeyPfx ++ id,
          Val.file { r₀ with OriginalName := name, OwnerID := newOwner }) ∈
          (s'.entries.filter (fun e => e.persona == newOwner && e.app == AppID)).map
            (fun e => (e.key, e.val)) := by
        rw [List.mem_map]
        refine ⟨⟨partitionFor newOwner, AppID, FileKeyPfx ++ id,
          .file { r₀ with OriginalName := name, OwnerID := newOwner }⟩, ?_, rfl⟩
        rw [List.mem_filter, hs'entries]
        refine ⟨List.mem_cons_self _ _, ?_⟩
        dsimp only
        rw [hPnew]
        simp
      have hgetnew : s'.get newOwner AppID (FileKeyPfx ++ id) =
          some (.file { r₀ with OriginalName := name, OwnerID := newOwner }) := by
        unfold Store.get
        rw [hs'entries, List.find?_cons_of_pos]
        · rfl
        · rw [isAt_iff]
          dsimp only
          exact ⟨hPnew, rfl, rfl⟩
      have hupdmem : { r₀ with OriginalName := name, OwnerID := newOwner } ∈
          ((s'.entries.filter (fun e => e.persona == newOwner && e.app == AppID)).map
            (fun e => (e.key, e.val))).filterMap (fun kv =>
              if hasPfx kv.1 FileKeyPfx then (getRecordFile s' newOwner AppID kv.1).toOption
              else none) := by
        rw [List.mem_filterMap]
        refine ⟨(FileKeyPfx ++ id,
          Val.file { r₀ with OriginalName := name, OwnerID := newOwner }), hkvmem, ?_⟩
        rw [if_pos (hasPfx_append _ _)]
        unfold getRecordFile
        rw [hgetnew]
        rfl
      refine ⟨db.resolveOwnerName s' { r₀ with OriginalName := name, OwnerID := newOwner },
        ?_, ?_⟩
      · dsimp only
        rw [List.mem_insertionSort, mem_listFilter_nosearch]
        exact ⟨_, hupdmem, rfl⟩
      · rw [resolve_ID]
        exact hri

/-- Witness for C1 (amended): the concrete move of `alice`'s file `g` to
`bob`. -/
theorem C1_witness :
    (∃ v, sAliceFileMoved.getGlobal AppID (FileKeyPfx ++ "g") = .ok (v, partitionFor "bob")) ∧
    sAliceFileMoved.get "alice" AppID (FileKeyPfx ++ "g") = none ∧
    (∃ resp, db.ListFiles sAliceFileMoved ⟨"", "alice", 0, 0⟩ = .ok resp ∧
      ∀ r ∈ resp.Files, r.ID ≠ "g") ∧
    (∃ resp, db.ListFiles sAliceFileMoved ⟨"", "bob", 0, 0⟩ = .ok resp ∧
      ∃ r ∈ resp.Files, r.ID = "g") := by
  have h := C1_ownership_move sAliceFile "g" "doc2" "bob"
    ⟨"g", "doc", "", 0, 0, "alice", "Unknown", ""⟩ sAliceFileMoved
    (by decide) rfl (by decide) (by decide) (by decide) (by decide) (by decide)
  exact h

/-- C1 (counterexample): the original claim fails in exactly the two
corners the amendment excludes.  First corner: for a system-owned file
(stored owner is the empty string) reassigned to `alice`, the claim's
"list scoped to the old owner" is the empty-owner (administrator) listing,
which still surfaces the file.  Second corner: for a file whose stored
owner is the literal system-partition name reassigned to the empty owner,
both owners map to the same partition, so the old owner's partition still
contains the key after the update. -/
theorem C1_counterexample :
    ((db.GetFileRecord sSysFile "f").toOption.map (fun r => r.OwnerID) = some "" ∧
     ("" : String) ≠ "alice" ∧
     db.UpdateFileRecord sSysFile "f" "doc" "alice" = .ok sSysFileMoved ∧
     (db.ListFiles sSysFileMoved ⟨"", "", 0, 0⟩).toOption.map
       (fun resp => resp.Files.any (fun r => r.ID == "f")) = some true) ∧
    ((db.GetFileRecord sUnderscoreFile "h").toOption.map (fun r => r.OwnerID) =
       some "_system" ∧
     ("" : String) ≠ "_system" ∧
     db.UpdateFileRecord sUnderscoreFile "h" "doc" "" = .ok sUnderscoreFileKept ∧
     sUnderscoreFileKept.get (partitionFor "_system") AppID (FileKeyPfx ++ "h") =
       some (.file ⟨"h", "doc", "", 0, 0, "", "Unknown", ""⟩)) := by
  decide

end Depot
